import Mathlib

/-!
# Verification of the attendance face-matching core

Shallow embedding of the `process-attendance` edge function (descriptor
matching, roster reconciliation, attendance-record assembly) and of the
surrounding status handling, together with theorems settling the frozen
claims about the specification.

Numeric embedding values are modelled as rationals (`ℚ`); distances are
real numbers (`ℝ`), since the source computes `Math.sqrt`.  Student and
user identifiers are strings.  JavaScript's `null` sentinels are modelled
with `Option`; the `POSITIVE_INFINITY` initial best distance is modelled
by the `none` state of the running best match (no candidate compared yet),
which is faithful because every computed distance is finite and therefore
strictly below `POSITIVE_INFINITY`.
-/

namespace Attendx

/-- A row of the `students` table as selected by the edge function:
`id` (primary key, used to fetch face rows) and `user_id` (the identifier
used in present/absent lists). -/
structure Student where
  id : String
  user_id : String
deriving DecidableEq, Repr

/-- A row of the `faces_data` table as seen by the edge function: the
owning `user_id` and the stored `embedding` column.  `none` models a
value that is not an array (`Array.isArray(emb)` false). -/
structure FaceRow where
  user_id : String
  embedding : Option (List ℚ)
deriving DecidableEq, Repr

/-- The attendance record assembled by the edge function: present and
absent user-id lists and the unknown-face entries
`{index, bestDistance}` (`bestDistance = none` models JSON `null`). -/
structure AttendanceRecord where
  present_students : List String
  absent_students : List String
  unknown_faces : List (ℕ × Option ℝ)

/-- Sum of squared coordinate differences over the common prefix of the
two vectors: the loop `for (let i = 0; i < Math.min(a.length, b.length); i++)
s += (a[i]-b[i])^2` of `dist`, which reads only indices below the shorter
length — exactly `List.zipWith`. -/
def sumSq (a b : List ℚ) : ℚ :=
  (List.zipWith (fun x y => (x - y) ^ 2) a b).sum

/-- `dist(a, b) = Math.sqrt(s)`: Euclidean distance over the common
prefix of the two vectors (the source truncates to
`Math.min(a.length, b.length)`). -/
noncomputable def dist (a b : List ℚ) : ℝ :=
  Real.sqrt ((sumSq a b : ℚ) : ℝ)

/-- Modelled from the spec (§4.2 Distance Function), for comparison with
the source's `dist`: the specification demands a LengthMismatch failure
(`none`) when the lengths differ, and the full L2 distance otherwise. -/
noncomputable def distSpec (a b : List ℚ) : Option ℝ :=
  if a.length = b.length then some (dist a b) else none

/-- One step of building the `byUser` lookup
(`Record<string, number[][]>`): `if (!byUser[uid]) byUser[uid] = [];`
always creates the key, and the embedding is pushed only when it is an
array and nonempty (`Array.isArray(emb) && emb.length`).  The record is
modelled as an association list in key-insertion order, which is the
iteration order of `Object.entries` for string keys. -/
def addFace (m : List (String × List (List ℚ))) (f : FaceRow) :
    List (String × List (List ℚ)) :=
  let m' := if m.any (fun p => p.1 = f.user_id) then m else m ++ [(f.user_id, [])]
  match f.embedding with
  | some e => if e ≠ [] then
      m'.map (fun p => if p.1 = f.user_id then (p.1, p.2 ++ [e]) else p)
    else m'
  | none => m'

/-- The `byUser` lookup built from all fetched face rows. -/
def buildByUser (rows : List FaceRow) : List (String × List (List ℚ)) :=
  rows.foldl addFace []

/-- All candidate `(uid, embedding)` pairs in the order the nested
matching loop visits them (`Object.entries(byUser)`, then each
embedding list in order). -/
def candidates (m : List (String × List (List ℚ))) : List (String × List ℚ) :=
  m.flatMap (fun p => p.2.map (fun e => (p.1, e)))

/-- Inner step of the matching loop: compare one candidate embedding `e`
of user `uid` against the detected descriptor `desc`, updating the
running `(bestUid, best)` state on strict improvement (`if (d < best)`).
The `none` state is the initial `(null, POSITIVE_INFINITY)` pair, which
any finite distance beats. -/
noncomputable def stepEmb (desc : List ℚ) (uid : String)
    (st : Option (String × ℝ)) (e : List ℚ) : Option (String × ℝ) :=
  let d := dist desc e
  match st with
  | none => some (uid, d)
  | some (bu, b) => if d < b then some (uid, d) else some (bu, b)

/-- The same step reformulated on a flattened `(uid, embedding)`
candidate pair, used to reason about the nested loop as a single fold. -/
noncomputable def stepC (desc : List ℚ) (st : Option (String × ℝ))
    (q : String × List ℚ) : Option (String × ℝ) :=
  stepEmb desc q.1 st q.2

/-- The nested candidate scan for one detected descriptor: iterate over
`Object.entries(byUser)` and over each user's embeddings, tracking the
best (smallest-distance) candidate.  Result `none` models
`bestUid === null ∧ best === POSITIVE_INFINITY` (no candidate existed). -/
noncomputable def bestMatch (m : List (String × List (List ℚ)))
    (desc : List ℚ) : Option (String × ℝ) :=
  m.foldl (fun st p => p.2.foldl (stepEmb desc p.1) st) none

/-- `THRESHOLD = 0.6`. -/
noncomputable def THRESHOLD : ℝ := 0.6

/-- `presentSet.add(uid)`: a JS `Set` preserves insertion order and
ignores re-insertion of an existing element. -/
def setAdd (s : List String) (x : String) : List String :=
  if x ∈ s then s else s ++ [x]

/-- The main `for (let i = 0; ...)` loop over the detected descriptors,
carrying the current index, the present set and the unknown-face list:
a matched face (`bestUid && best < THRESHOLD`) adds its best user to the
present set, any other face is appended to `unknownFaces` with
`bestDistance = isFinite(best) ? best : null`. -/
noncomputable def loopGo (m : List (String × List (List ℚ))) :
    ℕ → List (List ℚ) → List String → List (ℕ × Option ℝ) →
    List String × List (ℕ × Option ℝ)
  | _, [], present, unknown => (present, unknown)
  | i, d :: rest, present, unknown =>
    match bestMatch m d with
    | some (uid, b) =>
      if b < THRESHOLD then
        loopGo m (i + 1) rest (setAdd present uid) unknown
      else
        loopGo m (i + 1) rest present (unknown ++ [(i, some b)])
    | none => loopGo m (i + 1) rest present (unknown ++ [(i, none)])

/-- The whole matching loop, started at index 0 with empty present set
and empty unknown list. -/
noncomputable def matchLoop (m : List (String × List (List ℚ)))
    (descs : List (List ℚ)) : List String × List (ℕ × Option ℝ) :=
  loopGo m 0 descs [] []

/-- `students.map(s => s.user_id)`: the roster's user identifiers. -/
def allStudentIds (students : List Student) : List String :=
  students.map (·.user_id)

/-- The attendance record assembled by the edge function from the class
roster, the fetched face rows and the client-supplied descriptors:
`presentStudents = Array.from(presentSet)`,
`absentStudents = allStudentIds.filter(id => !presentSet.has(id))`. -/
noncomputable def attendanceResult (students : List Student)
    (rows : List FaceRow) (descs : List (List ℚ)) : AttendanceRecord :=
  let r := matchLoop (buildByUser rows) descs
  { present_students := r.1
    absent_students := (allStudentIds students).filter (fun id => id ∉ r.1)
    unknown_faces := r.2 }

/-- The legacy simulation in
`src/supabase/functions/process-attendance/index.ts`:
`students.filter(() => Math.random() > 0.5).map(s => s.user_id)`.
The stream of `Math.random() > 0.5` draws is made explicit as a list of
booleans paired with the students. -/
def simulatePresentStudents (students : List Student) (coins : List Bool) :
    List String :=
  ((students.zip coins).filter (fun p => p.2)).map (fun p => p.1.user_id)

/-- Which of the edge function's fallible external calls fail in a given
run: the `students` select, the `faces_data` select, and the
`attendance_records` insert.  Each failure `throw`s into the catch
handler. -/
structure RunOracle where
  studentsFail : Bool
  facesFail : Bool
  insertFail : Bool
deriving DecidableEq, Repr

/-- The sequence of `analysis_status` values the edge function writes to
the photo row during one run: it always writes `processing` first, and
writes `completed` at the end of a fully successful run; every failure
path jumps to the catch handler, which only returns an HTTP 500 response
and performs no status update. -/
def handlerStatusTrace (o : RunOracle) : List String :=
  ["processing"] ++
    (if o.studentsFail then []
     else if o.facesFail then []
     else if o.insertFail then []
     else ["completed"])

/-- The photo's final `analysis_status` after one run, starting from the
`pending` default of the schema. -/
def finalStatus (o : RunOracle) : String :=
  (handlerStatusTrace o).getLastD "pending"

/-- The unknown-face entry a single descriptor would produce: `none`
when the face is matched (no entry), `some bd` when it is pushed onto
`unknownFaces` with best distance `bd`. -/
noncomputable def faceUnknownEntry (m : List (String × List (List ℚ)))
    (d : List ℚ) : Option (Option ℝ) :=
  match bestMatch m d with
  | some q => if q.2 < THRESHOLD then none else some (some q.2)
  | none => some none

/-- The unknown-face entries produced by the tail of the loop starting
at index `i`. -/
noncomputable def unknownFrom (m : List (String × List (List ℚ))) :
    ℕ → List (List ℚ) → List (ℕ × Option ℝ)
  | _, [] => []
  | i, d :: rest =>
    match bestMatch m d with
    | some q =>
      if q.2 < THRESHOLD then unknownFrom m (i + 1) rest
      else (i, some q.2) :: unknownFrom m (i + 1) rest
    | none => (i, none) :: unknownFrom m (i + 1) rest

lemma mem_setAdd {s : List String} {x y : String} :
    y ∈ setAdd s x ↔ y ∈ s ∨ y = x := by
  unfold setAdd
  by_cases h : x ∈ s
  · simp only [if_pos h]
    refine ⟨Or.inl, ?_⟩
    rintro (hy | rfl)
    · exact hy
    · exact h
  · simp [if_neg h]

lemma nodup_setAdd {s : List String} {x : String} (h : s.Nodup) :
    (setAdd s x).Nodup := by
  unfold setAdd
  by_cases hx : x ∈ s
  · simpa [if_pos hx] using h
  · simp [if_neg hx, List.nodup_append, h, hx]

lemma foldl_inner_eq (d : List ℚ) (uid : String) (es : List (List ℚ))
    (st : Option (String × ℝ)) :
    es.foldl (stepEmb d uid) st = (es.map (fun e => (uid, e))).foldl (stepC d) st := by
  rw [List.foldl_map]
  rfl

lemma foldl_candidates (d : List ℚ) :
    ∀ (m : List (String × List (List ℚ))) (st : Option (String × ℝ)),
      m.foldl (fun st p => p.2.foldl (stepEmb d p.1) st) st
        = (candidates m).foldl (stepC d) st
  | [], _ => rfl
  | p :: m', st => by
    rw [List.foldl_cons, foldl_candidates d m']
    unfold candidates
    rw [List.flatMap_cons, List.foldl_append, foldl_inner_eq]

lemma bestMatch_eq_foldC (m : List (String × List (List ℚ))) (d : List ℚ) :
    bestMatch m d = (candidates m).foldl (stepC d) none :=
  foldl_candidates d m none

lemma stepC_ne_none (d : List ℚ) (st : Option (String × ℝ))
    (q : String × List ℚ) : stepC d st q ≠ none := by
  rcases st with _ | ⟨bu, b⟩
  · simp [stepC, stepEmb]
  · simp only [stepC, stepEmb]
    split <;> simp

lemma foldl_stepC_none_iff (d : List ℚ) :
    ∀ (L : List (String × List ℚ)) (st : Option (String × ℝ)),
      L.foldl (stepC d) st = none ↔ st = none ∧ L = []
  | [], st => by simp
  | q :: L', st => by
    rw [List.foldl_cons, foldl_stepC_none_iff d L' (stepC d st q)]
    simp [stepC_ne_none d st q]

lemma foldl_stepC_le (d : List ℚ) :
    ∀ (L : List (String × List ℚ)) (st : Option (String × ℝ)) (u : String) (b : ℝ),
      L.foldl (stepC d) st = some (u, b) →
      (∀ q ∈ L, b ≤ dist d q.2) ∧ (∀ u0 b0, st = some (u0, b0) → b ≤ b0)
  | [], st, u, b, h => by
    refine ⟨by simp, ?_⟩
    intro u0 b0 h0
    rw [List.foldl_nil] at h
    rw [h0] at h
    injection h with h'
    injection h' with _ hb
    exact le_of_eq hb.symm
  | q :: L', st, u, b, h => by
    rw [List.foldl_cons] at h
    obtain ⟨hrest, hinit⟩ := foldl_stepC_le d L' (stepC d st q) u b h
    have hq : b ≤ dist d q.2 ∧ ∀ u0 b0, st = some (u0, b0) → b ≤ b0 := by
      rcases st with _ | ⟨bu, b0⟩
      · refine ⟨hinit q.1 (dist d q.2) rfl, ?_⟩
        intro u0 b0 h0
        exact absurd h0 (by simp)
      · by_cases hlt : dist d q.2 < b0
        · have hb : b ≤ dist d q.2 := by
            apply hinit q.1 (dist d q.2)
            simp [stepC, stepEmb, if_pos hlt]
          refine ⟨hb, ?_⟩
          intro u1 b1 h1
          injection h1 with h1'
          injection h1' with _ hb1
          subst hb1
          exact hb.trans hlt.le
        · have hb : b ≤ b0 := by
            apply hinit bu b0
            simp [stepC, stepEmb, if_neg hlt]
          refine ⟨hb.trans (not_lt.mp hlt), ?_⟩
          intro u1 b1 h1
          injection h1 with h1'
          injection h1' with _ hb1
          subst hb1
          exact hb
    refine ⟨?_, hq.2⟩
    intro q' hq'
    rcases List.mem_cons.mp hq' with rfl | hq'
    · exact hq.1
    · exact hrest q' hq'

lemma foldl_stepC_attained (d : List ℚ) :
    ∀ (L : List (String × List ℚ)) (st : Option (String × ℝ)) (u : String) (b : ℝ),
      L.foldl (stepC d) st = some (u, b) →
      st = some (u, b) ∨ ∃ q ∈ L, q.1 = u ∧ dist d q.2 = b
  | [], st, u, b, h => by
    rw [List.foldl_nil] at h
    exact Or.inl h
  | q :: L', st, u, b, h => by
    rw [List.foldl_cons] at h
    rcases foldl_stepC_attained d L' (stepC d st q) u b h with hst | ⟨q', hq', hq⟩
    · rcases st with _ | ⟨bu, b0⟩
      · simp only [stepC, stepEmb] at hst
        injection hst with hst'
        injection hst' with hu hb
        exact Or.inr ⟨q, List.mem_cons_self q L', hu, hb⟩
      · by_cases hlt : dist d q.2 < b0
        · simp only [stepC, stepEmb, if_pos hlt] at hst
          injection hst with hst'
          injection hst' with hu hb
          exact Or.inr ⟨q, List.mem_cons_self q L', hu, hb⟩
        · simp only [stepC, stepEmb, if_neg hlt] at hst
          exact Or.inl hst
    · exact Or.inr ⟨q', List.mem_cons_of_mem q hq', hq⟩

lemma bestMatch_none_iff (m : List (String × List (List ℚ))) (d : List ℚ) :
    bestMatch m d = none ↔ candidates m = [] := by
  rw [bestMatch_eq_foldC, foldl_stepC_none_iff]
  simp

lemma bestMatch_le {m : List (String × List (List ℚ))} {d : List ℚ}
    {u : String} {b : ℝ} (h : bestMatch m d = some (u, b)) :
    ∀ q ∈ candidates m, b ≤ dist d q.2 := by
  rw [bestMatch_eq_foldC] at h
  exact (foldl_stepC_le d (candidates m) none u b h).1

lemma bestMatch_attained {m : List (String × List (List ℚ))} {d : List ℚ}
    {u : String} {b : ℝ} (h : bestMatch m d = some (u, b)) :
    ∃ q ∈ candidates m, q.1 = u ∧ dist d q.2 = b := by
  rw [bestMatch_eq_foldC] at h
  rcases foldl_stepC_attained d (candidates m) none u b h with hst | hq
  · exact absurd hst (by simp)
  · exact hq

lemma mem_candidates {m : List (String × List (List ℚ))} {q : String × List ℚ} :
    q ∈ candidates m ↔ ∃ p ∈ m, p.1 = q.1 ∧ q.2 ∈ p.2 := by
  unfold candidates
  rw [List.mem_flatMap]
  constructor
  · rintro ⟨p, hp, hq⟩
    rcases List.mem_map.mp hq with ⟨e, he, rfl⟩
    exact ⟨p, hp, rfl, he⟩
  · rintro ⟨p, hp, h1, h2⟩
    refine ⟨p, hp, List.mem_map.mpr ⟨q.2, h2, ?_⟩⟩
    rw [h1]

lemma loopGo_fst_mem (m : List (String × List (List ℚ))) :
    ∀ (ds : List (List ℚ)) (i : ℕ) (p : List String)
      (u : List (ℕ × Option ℝ)) (x : String),
      x ∈ (loopGo m i ds p u).1 ↔
        x ∈ p ∨ ∃ d ∈ ds, ∃ b, bestMatch m d = some (x, b) ∧ b < THRESHOLD
  | [], i, p, u, x => by simp [loopGo]
  | d :: rest, i, p, u, x => by
    rcases hbm : bestMatch m d with _ | ⟨uid, b⟩
    · rw [show loopGo m i (d :: rest) p u
          = loopGo m (i + 1) rest p (u ++ [(i, none)]) by simp [loopGo, hbm]]
      rw [loopGo_fst_mem m rest (i + 1) p (u ++ [(i, none)]) x]
      simp [hbm]
    · by_cases hb : b < THRESHOLD
      · rw [show loopGo m i (d :: rest) p u
            = loopGo m (i + 1) rest (setAdd p uid) u by simp [loopGo, hbm, hb]]
        rw [loopGo_fst_mem m rest (i + 1) (setAdd p uid) u x]
        rw [mem_setAdd]
        constructor
        · rintro ((hx | rfl) | hx)
          · exact Or.inl hx
          · exact Or.inr ⟨d, List.mem_cons_self d rest, b, hbm, hb⟩
          · rcases hx with ⟨d', hd', hb'⟩
            exact Or.inr ⟨d', List.mem_cons_of_mem d hd', hb'⟩
        · rintro (hx | ⟨d', hd', b', hbm', hb'⟩)
          · exact Or.inl (Or.inl hx)
          · rcases List.mem_cons.mp hd' with rfl | hd'
            · rw [hbm] at hbm'
              injection hbm' with h'
              injection h' with hu _
              exact Or.inl (Or.inr hu.symm)
            · exact Or.inr ⟨d', hd', b', hbm', hb'⟩
      · rw [show loopGo m i (d :: rest) p u
            = loopGo m (i + 1) rest p (u ++ [(i, some b)]) by simp [loopGo, hbm, hb]]
        rw [loopGo_fst_mem m rest (i + 1) p (u ++ [(i, some b)]) x]
        constructor
        · rintro (hx | ⟨d', hd', hb'⟩)
          · exact Or.inl hx
          · exact Or.inr ⟨d', List.mem_cons_of_mem d hd', hb'⟩
        · rintro (hx | ⟨d', hd', b', hbm', hb'⟩)
          · exact Or.inl hx
          · rcases List.mem_cons.mp hd' with rfl | hd'
            · rw [hbm] at hbm'
              injection hbm' with h'
              injection h' with _ hb2
              exact absurd (hb2 ▸ hb') hb
            · exact Or.inr ⟨d', hd', b', hbm', hb'⟩

lemma loopGo_fst_nodup (m : List (String × List (List ℚ))) :
    ∀ (ds : List (List ℚ)) (i : ℕ) (p : List String)
      (u : List (ℕ × Option ℝ)), p.Nodup → (loopGo m i ds p u).1.Nodup
  | [], i, p, u, hp => by simpa [loopGo] using hp
  | d :: rest, i, p, u, hp => by
    rcases hbm : bestMatch m d with _ | ⟨uid, b⟩
    · rw [show loopGo m i (d :: rest) p u
          = loopGo m (i + 1) rest p (u ++ [(i, none)]) by simp [loopGo, hbm]]
      exact loopGo_fst_nodup m rest (i + 1) p _ hp
    · by_cases hb : b < THRESHOLD
      · rw [show loopGo m i (d :: rest) p u
            = loopGo m (i + 1) rest (setAdd p uid) u by simp [loopGo, hbm, hb]]
        exact loopGo_fst_nodup m rest (i + 1) (setAdd p uid) u (nodup_setAdd hp)
      · rw [show loopGo m i (d :: rest) p u
            = loopGo m (i + 1) rest p (u ++ [(i, some b)]) by simp [loopGo, hbm, hb]]
        exact loopGo_fst_nodup m rest (i + 1) p _ hp

lemma unknownFrom_cons (m : List (String × List (List ℚ))) (i : ℕ)
    (d : List ℚ) (rest : List (List ℚ)) :
    unknownFrom m i (d :: rest) =
      (match faceUnknownEntry m d with
        | some bd => [(i, bd)]
        | none => []) ++ unknownFrom m (i + 1) rest := by
  rcases hbm : bestMatch m d with _ | ⟨uid, b⟩
  · simp [unknownFrom, faceUnknownEntry, hbm]
  · by_cases hb : b < THRESHOLD
    · simp [unknownFrom, faceUnknownEntry, hbm, hb]
    · simp [unknownFrom, faceUnknownEntry, hbm, hb]

lemma loopGo_snd (m : List (String × List (List ℚ))) :
    ∀ (ds : List (List ℚ)) (i : ℕ) (p : List String)
      (u : List (ℕ × Option ℝ)),
      (loopGo m i ds p u).2 = u ++ unknownFrom m i ds
  | [], i, p, u => by simp [loopGo, unknownFrom]
  | d :: rest, i, p, u => by
    rcases hbm : bestMatch m d with _ | ⟨uid, b⟩
    · rw [show loopGo m i (d :: rest) p u
          = loopGo m (i + 1) rest p (u ++ [(i, none)]) by simp [loopGo, hbm]]
      rw [loopGo_snd m rest (i + 1) p _, unknownFrom_cons]
      simp [faceUnknownEntry, hbm]
    · by_cases hb : b < THRESHOLD
      · rw [show loopGo m i (d :: rest) p u
            = loopGo m (i + 1) rest (setAdd p uid) u by simp [loopGo, hbm, hb]]
        rw [loopGo_snd m rest (i + 1) _ _, unknownFrom_cons]
        simp [faceUnknownEntry, hbm, hb]
      · rw [show loopGo m i (d :: rest) p u
            = loopGo m (i + 1) rest p (u ++ [(i, some b)]) by simp [loopGo, hbm, hb]]
        rw [loopGo_snd m rest (i + 1) _ _, unknownFrom_cons]
        simp [faceUnknownEntry, hbm, hb]

lemma mem_unknownFrom (m : List (String × List (List ℚ))) :
    ∀ (ds : List (List ℚ)) (i j : ℕ) (bd : Option ℝ),
      (j, bd) ∈ unknownFrom m i ds ↔
        ∃ k, k < ds.length ∧ j = i + k ∧
          faceUnknownEntry m (ds.getD k []) = some bd
  | [], i, j, bd => by simp [unknownFrom]
  | d :: rest, i, j, bd => by
    rw [unknownFrom_cons]
    rw [List.mem_append]
    constructor
    · rintro (hpre | hrec)
      · rcases hfe : faceUnknownEntry m d with _ | bd0
        · rw [hfe] at hpre
          simp at hpre
        · rw [hfe] at hpre
          simp only [List.mem_singleton] at hpre
          injection hpre with hj hbd
          exact ⟨0, by simp, by omega, by simpa [hbd] using hfe⟩
      · rcases (mem_unknownFrom m rest (i + 1) j bd).mp hrec with ⟨k, hk, hj, hfe⟩
        exact ⟨k + 1, by simpa using hk, by omega, hfe⟩
    · rintro ⟨k, hk, rfl, hfe⟩
      rcases k with _ | k'
      · left
        simp only [List.getD_cons_zero] at hfe
        rw [hfe]
        simp
      · right
        apply (mem_unknownFrom m rest (i + 1) (i + (k' + 1)) bd).mpr
        refine ⟨k', by simpa using hk, by omega, ?_⟩
        simpa using hfe

lemma foldl_addFace_keys (P : String → Prop) :
    ∀ (rows : List FaceRow) (acc : List (String × List (List ℚ))),
      (∀ p ∈ acc, P p.1) → (∀ f ∈ rows, P f.user_id) →
      ∀ p ∈ rows.foldl addFace acc, P p.1
  | [], acc, hacc, _, p, hp => hacc p hp
  | f :: rest, acc, hacc, hrows, p, hp => by
    rw [List.foldl_cons] at hp
    refine foldl_addFace_keys P rest (addFace acc f) ?_
      (fun f' hf' => hrows f' (List.mem_cons_of_mem f hf')) p hp
    intro p' hp'
    have hm' : ∀ p'' ∈ (if acc.any (fun p => p.1 = f.user_id) then acc
        else acc ++ [(f.user_id, [])]), P p''.1 := by
      intro p'' hp''
      by_cases hany : acc.any (fun p => p.1 = f.user_id)
      · rw [if_pos hany] at hp''
        exact hacc p'' hp''
      · rw [if_neg hany] at hp''
        rcases List.mem_append.mp hp'' with h | h
        · exact hacc p'' h
        · rcases List.mem_singleton.mp h with rfl
          exact hrows f (List.mem_cons_self f rest)
    rcases hemb : f.embedding with _ | e
    · simp only [addFace, hemb] at hp'
      exact hm' p' hp'
    · simp only [addFace, hemb] at hp'
      by_cases he : e ≠ []
      · rw [if_pos he] at hp'
        rcases List.mem_map.mp hp' with ⟨p'', hp'', rfl⟩
        by_cases hkey : p''.1 = f.user_id
        · rw [if_pos hkey]
          exact hkey ▸ hm' p'' hp''
        · rw [if_neg hkey]
          exact hm' p'' hp''
      · rw [if_neg he] at hp'
        exact hm' p' hp'

lemma foldl_addFace_embs :
    ∀ (rows : List FaceRow) (acc : List (String × List (List ℚ))),
      (∀ p ∈ acc, ∀ e ∈ p.2, e ≠ []) →
      ∀ p ∈ rows.foldl addFace acc, ∀ e ∈ p.2, e ≠ []
  | [], acc, hacc, p, hp => hacc p hp
  | f :: rest, acc, hacc, p, hp => by
    rw [List.foldl_cons] at hp
    refine foldl_addFace_embs rest (addFace acc f) ?_ p hp
    intro p' hp'
    have hm' : ∀ p'' ∈ (if acc.any (fun p => p.1 = f.user_id) then acc
        else acc ++ [(f.user_id, [])]), ∀ e ∈ p''.2, e ≠ [] := by
      intro p'' hp''
      by_cases hany : acc.any (fun p => p.1 = f.user_id)
      · rw [if_pos hany] at hp''
        exact hacc p'' hp''
      · rw [if_neg hany] at hp''
        rcases List.mem_append.mp hp'' with h | h
        · exact hacc p'' h
        · rcases List.mem_singleton.mp h with rfl
          simp
    rcases hemb : f.embedding with _ | e
    · simp only [addFace, hemb] at hp'
      exact hm' p' hp'
    · simp only [addFace, hemb] at hp'
      by_cases he : e ≠ []
      · rw [if_pos he] at hp'
        rcases List.mem_map.mp hp' with ⟨p'', hp'', rfl⟩
        by_cases hkey : p''.1 = f.user_id
        · rw [if_pos hkey]
          intro e' he'
          rcases List.mem_append.mp he' with h | h
          · exact hm' p'' hp'' e' h
          · rcases List.mem_singleton.mp h with rfl
            exact he
        · rw [if_neg hkey]
          exact hm' p'' hp''
      · rw [if_neg he] at hp'
        exact hm' p' hp'

lemma buildByUser_keys (rows : List FaceRow) :
    ∀ p ∈ buildByUser rows, p.1 ∈ rows.map FaceRow.user_id :=
  foldl_addFace_keys (· ∈ rows.map FaceRow.user_id) rows []
    (by simp) (fun f hf => List.mem_map_of_mem FaceRow.user_id hf)

lemma buildByUser_embs_ne_nil (rows : List FaceRow) :
    ∀ p ∈ buildByUser rows, ∀ e ∈ p.2, e ≠ [] :=
  foldl_addFace_embs rows [] (by simp)

lemma getD_mem_of_lt {α : Type} (l : List α) (n : ℕ) (d : α)
    (h : n < l.length) : l.getD n d ∈ l := by
  rw [List.getD_eq_getElem l d h]
  exact List.getElem_mem h

lemma mem_matchLoop_fst (m : List (String × List (List ℚ)))
    (descs : List (List ℚ)) (x : String) :
    x ∈ (matchLoop m descs).1 ↔
      ∃ d ∈ descs, ∃ b, bestMatch m d = some (x, b) ∧ b < THRESHOLD := by
  rw [matchLoop, loopGo_fst_mem]
  simp

lemma matchLoop_fst_nodup (m : List (String × List (List ℚ)))
    (descs : List (List ℚ)) : (matchLoop m descs).1.Nodup :=
  loopGo_fst_nodup m descs 0 [] [] List.nodup_nil

lemma mem_matchLoop_snd (m : List (String × List (List ℚ)))
    (descs : List (List ℚ)) (i : ℕ) (bd : Option ℝ) :
    (i, bd) ∈ (matchLoop m descs).2 ↔
      i < descs.length ∧ faceUnknownEntry m (descs.getD i []) = some bd := by
  rw [matchLoop, loopGo_snd]
  simp only [List.nil_append]
  rw [mem_unknownFrom]
  constructor
  · rintro ⟨k, hk, hik, hfe⟩
    have hki : k = i := by omega
    subst hki
    exact ⟨hk, hfe⟩
  · rintro ⟨hk, hfe⟩
    exact ⟨i, hk, by omega, hfe⟩

lemma mem_matchLoop_snd_fst (m : List (String × List (List ℚ)))
    (descs : List (List ℚ)) (i : ℕ) :
    i ∈ (matchLoop m descs).2.map Prod.fst ↔
      i < descs.length ∧ faceUnknownEntry m (descs.getD i []) ≠ none := by
  rw [List.mem_map]
  constructor
  · rintro ⟨q, hq, rfl⟩
    obtain ⟨hlt, hfe⟩ := (mem_matchLoop_snd m descs q.1 q.2).mp (by simpa using hq)
    exact ⟨hlt, by rw [hfe]; simp⟩
  · rintro ⟨hlt, hfe⟩
    rcases hfe' : faceUnknownEntry m (descs.getD i []) with _ | bd
    · exact absurd hfe' hfe
    · exact ⟨(i, bd), (mem_matchLoop_snd m descs i bd).mpr ⟨hlt, hfe'⟩, rfl⟩

lemma present_subset_keys (rows : List FaceRow) (descs : List (List ℚ))
    (u : String) (hu : u ∈ (matchLoop (buildByUser rows) descs).1) :
    u ∈ rows.map FaceRow.user_id := by
  rcases (mem_matchLoop_fst (buildByUser rows) descs u).mp hu
    with ⟨d, _, b, hbm, _⟩
  rcases bestMatch_attained hbm with ⟨q, hq, hq1, _⟩
  rcases mem_candidates.mp hq with ⟨p, hp, hp1, _⟩
  have hkey := buildByUser_keys rows p hp
  rw [hp1, hq1] at hkey
  exact hkey

lemma sumSq_take : ∀ (a b : List ℚ),
    sumSq a b = sumSq (a.take b.length) (b.take a.length)
  | [], b => by simp [sumSq]
  | x :: a', [] => by simp [sumSq]
  | x :: a', y :: b' => by
    simp only [sumSq, List.zipWith_cons_cons, List.sum_cons, List.length_cons,
      List.take_succ_cons]
    have ih := sumSq_take a' b'
    simp only [sumSq] at ih
    rw [ih]

/-- A registered embedding of length 1 matched (distance 0 after
truncation) against a detected descriptor of length 2: the concrete run
used to settle C5. -/
lemma mismatched_candidate_wins :
    (attendanceResult [⟨"s1", "u1"⟩] [⟨"u1", some [0]⟩] [[0, 10]]).present_students
      = ["u1"] := by
  have hbm : bestMatch (buildByUser [⟨"u1", some [0]⟩]) [0, 10]
      = some ("u1", dist [0, 10] [0]) := rfl
  have hd : dist [0, 10] [0] = 0 := by
    unfold dist
    norm_num [sumSq]
  have hb : dist [0, 10] [0] < THRESHOLD := by
    rw [hd]
    unfold THRESHOLD
    norm_num
  simp [attendanceResult, matchLoop, loopGo, hbm, hb, setAdd]

/-- C1: for every roster and every list of detected descriptors, under
the database consistency that every fetched face row belongs to a roster
student, the produced record's `present_students` and `absent_students`
are disjoint and their union is exactly the roster of registered
students. -/
theorem present_absent_partition (students : List Student)
    (rows : List FaceRow) (descs : List (List ℚ))
    (h : ∀ f ∈ rows, f.user_id ∈ allStudentIds students) :
    (∀ u, ¬(u ∈ (attendanceResult students rows descs).present_students ∧
        u ∈ (attendanceResult students rows descs).absent_students)) ∧
    (∀ u, (u ∈ (attendanceResult students rows descs).present_students ∨
        u ∈ (attendanceResult students rows descs).absent_students) ↔
        u ∈ allStudentIds students) := by
  have hpres : (attendanceResult students rows descs).present_students
      = (matchLoop (buildByUser rows) descs).1 := rfl
  have habs : (attendanceResult students rows descs).absent_students
      = (allStudentIds students).filter
          (fun id => id ∉ (matchLoop (buildByUser rows) descs).1) := rfl
  constructor
  · rintro u ⟨hp, ha⟩
    rw [habs, List.mem_filter] at ha
    rw [hpres] at hp
    simp only [decide_eq_true_eq] at ha
    exact ha.2 hp
  · intro u
    constructor
    · rintro (hp | ha)
      · rw [hpres] at hp
        rcases List.mem_map.mp (present_subset_keys rows descs u hp)
          with ⟨f, hf, rfl⟩
        exact h f hf
      · rw [habs] at ha
        exact (List.mem_filter.mp ha).1
    · intro hall
      by_cases hp : u ∈ (matchLoop (buildByUser rows) descs).1
      · exact Or.inl (hpres ▸ hp)
      · refine Or.inr ?_
        rw [habs, List.mem_filter]
        exact ⟨hall, by simpa using hp⟩

/-- C1 witness: concrete roster, face rows and (empty) descriptor list
satisfying the consistency hypothesis. -/
theorem present_absent_partition_witness :
    ¬("u1" ∈ (attendanceResult [⟨"s1", "u1"⟩] [⟨"u1", some [1, 0, 0]⟩] []).present_students ∧
      "u1" ∈ (attendanceResult [⟨"s1", "u1"⟩] [⟨"u1", some [1, 0, 0]⟩] []).absent_students) :=
  (present_absent_partition [⟨"s1", "u1"⟩] [⟨"u1", some [1, 0, 0]⟩] []
    (by decide)).1 "u1"

/-- C2: each detected face index below the descriptor count ends up in
exactly one of the two outcomes — either its best match is under the
threshold and it contributes to exactly one present student, or its
index appears in `unknown_faces`; and every unknown entry records a best
distance that was not below the threshold (or `none` when no candidate
existed). -/
theorem detected_face_exactly_one_outcome (students : List Student)
    (rows : List FaceRow) (descs : List (List ℚ)) (i : ℕ)
    (hi : i < descs.length) :
    ((∃! u, (∃ b, bestMatch (buildByUser rows) (descs.getD i []) = some (u, b) ∧
          b < THRESHOLD) ∧
        u ∈ (attendanceResult students rows descs).present_students) ∧
      i ∉ (attendanceResult students rows descs).unknown_faces.map Prod.fst) ∨
    ((¬∃ u b, bestMatch (buildByUser rows) (descs.getD i []) = some (u, b) ∧
        b < THRESHOLD) ∧
      i ∈ (attendanceResult students rows descs).unknown_faces.map Prod.fst ∧
      ∀ bd, (i, bd) ∈ (attendanceResult students rows descs).unknown_faces →
        (bestMatch (buildByUser rows) (descs.getD i []) = none ∧ bd = none) ∨
        ∃ u b, bestMatch (buildByUser rows) (descs.getD i []) = some (u, b) ∧
          ¬b < THRESHOLD ∧ bd = some b) := by
  have hpres : (attendanceResult students rows descs).present_students
      = (matchLoop (buildByUser rows) descs).1 := rfl
  have hunk : (attendanceResult students rows descs).unknown_faces
      = (matchLoop (buildByUser rows) descs).2 := rfl
  rcases hbm : bestMatch (buildByUser rows) (descs.getD i [])
    with _ | ⟨uid, b⟩
  · have hfe : faceUnknownEntry (buildByUser rows) (descs.getD i [])
        = some none := by
      unfold faceUnknownEntry
      rw [hbm]
    refine Or.inr ⟨?_, ?_, ?_⟩
    · rintro ⟨u, b, hbm', _⟩
      cases hbm'
    · rw [hunk, mem_matchLoop_snd_fst, hfe]
      simp [hi]
    · intro bd hmem
      rw [hunk, mem_matchLoop_snd, hfe] at hmem
      injection hmem.2 with hbd
      exact Or.inl ⟨rfl, hbd.symm⟩
  · by_cases hb : b < THRESHOLD
    · have hfe : faceUnknownEntry (buildByUser rows) (descs.getD i [])
          = none := by
        unfold faceUnknownEntry
        rw [hbm]
        simp [hb]
      refine Or.inl ⟨⟨uid, ⟨⟨b, rfl, hb⟩, ?_⟩, ?_⟩, ?_⟩
      · rw [hpres, mem_matchLoop_fst]
        exact ⟨descs.getD i [], getD_mem_of_lt descs i [] hi, b, hbm, hb⟩
      · rintro u' ⟨⟨b', hbm', _⟩, _⟩
        injection hbm' with h'
        injection h' with hu _
        exact hu.symm
      · rw [hunk, mem_matchLoop_snd_fst, hfe]
        simp
    · have hfe : faceUnknownEntry (buildByUser rows) (descs.getD i [])
          = some (some b) := by
        unfold faceUnknownEntry
        rw [hbm]
        simp [hb]
      refine Or.inr ⟨?_, ?_, ?_⟩
      · rintro ⟨u', b', hbm', hb'⟩
        injection hbm' with h'
        injection h' with _ hb2
        exact hb (hb2 ▸ hb')
      · rw [hunk, mem_matchLoop_snd_fst, hfe]
        simp [hi]
      · intro bd hmem
        rw [hunk, mem_matchLoop_snd, hfe] at hmem
        injection hmem.2 with hbd
        exact Or.inr ⟨uid, b, rfl, hb, hbd.symm⟩

/-- C2 witness: one detected face, one registered student close enough
to match. -/
theorem detected_face_exactly_one_outcome_witness :
    ((∃! u, (∃ b, bestMatch (buildByUser [⟨"u1", some [0]⟩]) (([[0]] : List (List ℚ)).getD 0 []) = some (u, b) ∧
          b < THRESHOLD) ∧
        u ∈ (attendanceResult [⟨"s1", "u1"⟩] [⟨"u1", some [0]⟩] [[0]]).present_students) ∧
      0 ∉ (attendanceResult [⟨"s1", "u1"⟩] [⟨"u1", some [0]⟩] [[0]]).unknown_faces.map Prod.fst) ∨
    ((¬∃ u b, bestMatch (buildByUser [⟨"u1", some [0]⟩]) (([[0]] : List (List ℚ)).getD 0 []) = some (u, b) ∧
        b < THRESHOLD) ∧
      0 ∈ (attendanceResult [⟨"s1", "u1"⟩] [⟨"u1", some [0]⟩] [[0]]).unknown_faces.map Prod.fst ∧
      ∀ bd, (0, bd) ∈ (attendanceResult [⟨"s1", "u1"⟩] [⟨"u1", some [0]⟩] [[0]]).unknown_faces →
        (bestMatch (buildByUser [⟨"u1", some [0]⟩]) (([[0]] : List (List ℚ)).getD 0 []) = none ∧ bd = none) ∨
        ∃ u b, bestMatch (buildByUser [⟨"u1", some [0]⟩]) (([[0]] : List (List ℚ)).getD 0 []) = some (u, b) ∧
          ¬b < THRESHOLD ∧ bd = some b) :=
  detected_face_exactly_one_outcome [⟨"s1", "u1"⟩] [⟨"u1", some [0]⟩]
    [[0]] 0 (by decide)

/-- C3: for each detected face the Matcher computes the minimum distance
over all candidate embeddings; the face is a match exactly when that
minimum is strictly below `THRESHOLD = 0.6`, otherwise it is unknown
with `bestDistance` equal to the minimum, or `null` (`none`) when no
candidate existed. -/
theorem matcher_min_threshold_rule (m : List (String × List (List ℚ)))
    (d : List ℚ) :
    (bestMatch m d = none ↔ candidates m = []) ∧
    (bestMatch m d = none → matchLoop m [d] = ([], [(0, none)])) ∧
    (∀ u b, bestMatch m d = some (u, b) →
      (∀ q ∈ candidates m, b ≤ dist d q.2) ∧
      (∃ q ∈ candidates m, q.1 = u ∧ dist d q.2 = b) ∧
      matchLoop m [d] =
        if b < THRESHOLD then ([u], []) else ([], [(0, some b)])) := by
  refine ⟨bestMatch_none_iff m d, ?_, ?_⟩
  · intro h
    simp [matchLoop, loopGo, h]
  · intro u b h
    refine ⟨bestMatch_le h, bestMatch_attained h, ?_⟩
    by_cases hb : b < THRESHOLD
    · simp [matchLoop, loopGo, h, hb, setAdd]
    · simp [matchLoop, loopGo, h, hb]

/-- C3 witness: a single registered embedding; the run reduces to the
threshold test on the (unique, hence minimal) candidate distance. -/
theorem matcher_min_threshold_rule_witness :
    matchLoop (buildByUser [⟨"u1", some [1, 0, 0]⟩]) [[1, 0, 0]] =
      if dist [1, 0, 0] [1, 0, 0] < THRESHOLD
      then (["u1"], []) else ([], [(0, some (dist [1, 0, 0] [1, 0, 0]))]) :=
  ((matcher_min_threshold_rule (buildByUser [⟨"u1", some [1, 0, 0]⟩])
    [1, 0, 0]).2.2 "u1" (dist [1, 0, 0] [1, 0, 0]) rfl).2.2

/-- C4 counterexample: the distance function does not fail on
mismatched lengths — it silently truncates.  `dist [3,4] [3]` even
returns `0`, while the spec-modelled contract (`distSpec`) demands a
LengthMismatch failure there. -/
theorem dist_no_length_error_counterexample :
    ([3, 4] : List ℚ).length ≠ ([3] : List ℚ).length ∧
    dist [3, 4] [3] = 0 ∧ distSpec [3, 4] [3] = none := by
  refine ⟨by decide, ?_, ?_⟩
  · unfold dist
    norm_num [sumSq]
  · unfold distSpec
    rw [if_neg (by decide)]

/-- C4 amended: `dist` is total and non-negative; on mismatched lengths
it silently truncates both vectors to the common prefix instead of
failing; only on equal-length inputs does it agree with the
spec-modelled contract, which fails (returns `none`) whenever the
lengths differ. -/
theorem dist_truncating_L2 (a b : List ℚ) :
    0 ≤ dist a b ∧
    dist a b = dist (a.take b.length) (b.take a.length) ∧
    (a.length = b.length → distSpec a b = some (dist a b)) ∧
    (a.length ≠ b.length → distSpec a b = none) := by
  refine ⟨Real.sqrt_nonneg _, ?_, ?_, ?_⟩
  · unfold dist
    rw [sumSq_take a b]
  · intro h
    unfold distSpec
    rw [if_pos h]
  · intro h
    unfold distSpec
    rw [if_neg h]

/-- C4 amended witness: equal-length inputs, where the source distance
and the spec contract agree. -/
theorem dist_truncating_L2_witness :
    distSpec [1, 2] [3, 4] = some (dist [1, 2] [3, 4]) :=
  (dist_truncating_L2 [1, 2] [3, 4]).2.2.1 rfl

/-- C5 counterexample: a registered embedding of length 1 against a
detected descriptor of length 2 — lengths mismatch, yet the candidate is
not skipped: its truncated distance is 0, it wins the match, and the
student is marked present. -/
theorem mismatched_candidate_wins_counterexample :
    ([0] : List ℚ).length ≠ ([0, 10] : List ℚ).length ∧
    (attendanceResult [⟨"s1", "u1"⟩] [⟨"u1", some [0]⟩] [[0, 10]]).present_students
      = ["u1"] :=
  ⟨by decide, mismatched_candidate_wins⟩

/-- C5 amended: a per-comparison length mismatch never aborts the
matching operation — every detected face still receives exactly one
outcome — but the mismatched candidate is not skipped: it is compared
via the truncated distance and can win the match. -/
theorem mismatch_never_aborts (m : List (String × List (List ℚ)))
    (descs : List (List ℚ)) (i : ℕ) (hi : i < descs.length) :
    (i ∈ (matchLoop m descs).2.map Prod.fst ∨
      ∃ u b, bestMatch m (descs.getD i []) = some (u, b) ∧ b < THRESHOLD ∧
        u ∈ (matchLoop m descs).1) ∧
    (attendanceResult [⟨"s1", "u1"⟩] [⟨"u1", some [0]⟩] [[0, 10]]).present_students
      = ["u1"] := by
  refine ⟨?_, mismatched_candidate_wins⟩
  rcases hbm : bestMatch m (descs.getD i []) with _ | ⟨u, b⟩
  · refine Or.inl ((mem_matchLoop_snd_fst m descs i).mpr ⟨hi, ?_⟩)
    rw [show faceUnknownEntry m (descs.getD i []) = some none by
      unfold faceUnknownEntry; rw [hbm]]
    simp
  · by_cases hb : b < THRESHOLD
    · refine Or.inr ⟨u, b, rfl, hb, ?_⟩
      rw [mem_matchLoop_fst]
      exact ⟨descs.getD i [], getD_mem_of_lt descs i [] hi, b, hbm, hb⟩
    · refine Or.inl ((mem_matchLoop_snd_fst m descs i).mpr ⟨hi, ?_⟩)
      rw [show faceUnknownEntry m (descs.getD i []) = some (some b) by
        unfold faceUnknownEntry; rw [hbm]; simp [hb]]
      simp

/-- C5 amended witness: one face against an empty candidate map. -/
theorem mismatch_never_aborts_witness :
    (0 ∈ (matchLoop [] [[1]]).2.map Prod.fst ∨
      ∃ u b, bestMatch [] (([[1]] : List (List ℚ)).getD 0 []) = some (u, b) ∧
        b < THRESHOLD ∧ u ∈ (matchLoop [] [[1]]).1) ∧
    (attendanceResult [⟨"s1", "u1"⟩] [⟨"u1", some [0]⟩] [[0, 10]]).present_students
      = ["u1"] :=
  mismatch_never_aborts [] [[1]] 0 (by decide)

/-- C6 counterexample: the legacy `process-attendance` implementation in
`src/supabase/functions/process-attendance/index.ts` marks students
present by `Math.random() > 0.5` coin flips — two runs on the identical
roster (and identical registered embeddings, which it ignores) can
produce different outputs. -/
theorem simulation_nondeterminism_counterexample :
    simulatePresentStudents [⟨"s1", "u1"⟩] [true]
      ≠ simulatePresentStudents [⟨"s1", "u1"⟩] [false] := by
  decide

/-- C6 amended: the descriptor-based matcher is a pure, deterministic
function of the roster, the registered face rows and the detected
descriptors — identical inputs yield identical outputs, with no other
input (randomness, hidden state) influencing the result. -/
theorem matcher_deterministic (students : List Student) (rows : List FaceRow)
    (d1 d2 : List (List ℚ)) (h : d1 = d2) :
    attendanceResult students rows d1 = attendanceResult students rows d2 := by
  rw [h]

/-- C6 amended witness. -/
theorem matcher_deterministic_witness :
    attendanceResult [] [] [] = attendanceResult [] [] [] :=
  matcher_deterministic [] [] [] [] rfl

/-- C7: the edge function never writes the `failed` status — when the
students fetch, the faces fetch or the attendance insert fails, the
photo is left at `processing` (and a successful run ends at
`completed`), contradicting the specified
pending → processing → completed | failed machine. -/
theorem failure_leaves_processing_status :
    finalStatus ⟨true, false, false⟩ = "processing" ∧
    finalStatus ⟨false, true, false⟩ = "processing" ∧
    finalStatus ⟨false, false, true⟩ = "processing" ∧
    finalStatus ⟨false, false, false⟩ = "completed" ∧
    ∀ o : RunOracle, "failed" ∉ handlerStatusTrace o := by
  refine ⟨rfl, rfl, rfl, rfl, ?_⟩
  rintro ⟨s, f, i⟩ h
  cases s <;> cases f <;> cases i <;> simp [handlerStatusTrace] at h

/-- C8: when two distinct detected faces both best-match the same
student under the threshold, both contribute to that student's presence
and the student appears exactly once in `present_students` (no
duplicate entry, no error). -/
theorem duplicate_matches_single_presence (m : List (String × List (List ℚ)))
    (descs : List (List ℚ)) (i j : ℕ) (u : String) (b1 b2 : ℝ)
    (hi : i < descs.length) (_hj : j < descs.length) (_hij : i ≠ j)
    (h1 : bestMatch m (descs.getD i []) = some (u, b1)) (hb1 : b1 < THRESHOLD)
    (_h2 : bestMatch m (descs.getD j []) = some (u, b2))
    (_hb2 : b2 < THRESHOLD) :
    u ∈ (matchLoop m descs).1 ∧ (matchLoop m descs).1.count u = 1 := by
  have hmem : u ∈ (matchLoop m descs).1 :=
    (mem_matchLoop_fst m descs u).mpr
      ⟨descs.getD i [], getD_mem_of_lt descs i [] hi, b1, h1, hb1⟩
  exact ⟨hmem, List.count_eq_one_of_mem (matchLoop_fst_nodup m descs) hmem⟩

/-- C8 witness: two identical detected faces both matching the single
registered student at distance 0. -/
theorem duplicate_matches_single_presence_witness :
    "u1" ∈ (matchLoop (buildByUser [⟨"u1", some [0, 0]⟩]) [[0, 0], [0, 0]]).1 ∧
    (matchLoop (buildByUser [⟨"u1", some [0, 0]⟩]) [[0, 0], [0, 0]]).1.count "u1" = 1 :=
  duplicate_matches_single_presence (buildByUser [⟨"u1", some [0, 0]⟩])
    [[0, 0], [0, 0]] 0 1 "u1" (dist [0, 0] [0, 0]) (dist [0, 0] [0, 0])
    (by decide) (by decide) (by decide) rfl
    (by unfold dist THRESHOLD; norm_num [sumSq]) rfl
    (by unfold dist THRESHOLD; norm_num [sumSq])

/-- C9: an empty detected-descriptor list is not an error: the record is
produced with no present students, the full roster absent, and no
unknown faces. -/
theorem empty_detected_all_absent (students : List Student)
    (rows : List FaceRow) :
    attendanceResult students rows [] = ⟨[], allStudentIds students, []⟩ := by
  unfold attendanceResult matchLoop loopGo
  simp [List.filter_eq_self]

/-- C10: face rows whose embedding is empty (or not an array) are
excluded when the `byUser` candidate map is built, so every candidate
embedding is nonempty and no detected face can ever be matched through
an empty embedding (which would have truncated distance 0 and match
every face). -/
theorem empty_embeddings_never_match (rows : List FaceRow) (d : List ℚ) :
    (∀ p ∈ buildByUser rows, ∀ e ∈ p.2, e ≠ []) ∧
    (∀ u b, bestMatch (buildByUser rows) d = some (u, b) →
      ∃ e, e ≠ [] ∧ (u, e) ∈ candidates (buildByUser rows) ∧ b = dist d e) := by
  refine ⟨buildByUser_embs_ne_nil rows, ?_⟩
  intro u b h
  rcases bestMatch_attained h with ⟨q, hq, hq1, hq2⟩
  rcases mem_candidates.mp hq with ⟨p, hp, hp1, hp2⟩
  refine ⟨q.2, buildByUser_embs_ne_nil rows p hp q.2 hp2, ?_, hq2.symm⟩
  have hqe : q = (u, q.2) := by
    rw [← hq1]
  exact hqe ▸ hq

/-- C10 witness: a row with an empty embedding next to a valid one — the
winning candidate embedding is the nonempty one. -/
theorem empty_embeddings_never_match_witness :
    ([0] : List ℚ) ≠ [] :=
  (empty_embeddings_never_match [⟨"u1", some []⟩, ⟨"u2", some [0]⟩] [0]).1
    ("u2", [[0]]) (by decide) [0] (by decide)

end Attendx
